import Mathlib

/-!
Verification of the GeeCache core against its specification.

The Go sources under src are embedded shallowly: pure functions become Lean
functions, in-place mutation becomes explicit state passing, Go byte slices
become lists of naturals, and fallible calls return Except.  Components of the
repository whose sources are not present (the LRU store, the consistent-hash
ring, the singleflight coalescer, the protobuf codec) are modelled from the
specification; each such definition carries a doc comment saying so.
-/

set_option autoImplicit false

/-- Association-list lookup modelling Go map indexing.  Writes are modelled by
prepending, so the first hit is the most recent write. -/
def assocLookup {α β : Type} [DecidableEq α] : List (α × β) → α → Option β
  | [], _ => none
  | (a, b) :: rest, q => if q = a then some b else assocLookup rest q

/-- Split a character list at the first occurrence of sep, modelling the Go
call strings.SplitN(s, sep, 2): none when sep does not occur (Go returns a
single fragment), otherwise the fragments before and after the first sep. -/
def splitFirst (sep : Char) : List Char → Option (List Char × List Char)
  | [] => none
  | c :: cs =>
    if c = sep then some ([], cs)
    else
      match splitFirst sep cs with
      | some (a, b) => some (c :: a, b)
      | none => none

/-- UTF-8 encoding of one character, used to model Go string-to-byte
conversions (Go strings are UTF-8 byte sequences). -/
def charUtf8 (c : Char) : List Nat :=
  let n := c.toNat
  if n < 128 then [n]
  else if n < 2048 then
    [192 ||| (n >>> 6), 128 ||| (n &&& 63)]
  else if n < 65536 then
    [224 ||| (n >>> 12), 128 ||| ((n >>> 6) &&& 63), 128 ||| (n &&& 63)]
  else
    [240 ||| (n >>> 18), 128 ||| ((n >>> 12) &&& 63), 128 ||| ((n >>> 6) &&& 63), 128 ||| (n &&& 63)]

/-- The bytes of a Go string. -/
def utf8Bytes (s : String) : List Nat :=
  s.data.flatMap charUtf8

/-- One bit step of reflected CRC-32 with the IEEE polynomial 0xEDB88320. -/
def crc32Round (c : Nat) : Nat :=
  if c % 2 = 1 then (c >>> 1) ^^^ 0xEDB88320 else c >>> 1

/-- Fold one byte into a CRC-32 accumulator (eight bit steps). -/
def crc32UpdateByte (c b : Nat) : Nat :=
  (List.range 8).foldl (fun acc _ => crc32Round acc) (c ^^^ b)

/-- CRC-32, IEEE polynomial, reflected form: the checksum Go computes with
crc32.ChecksumIEEE, the default hash of the consistent-hash ring. -/
def crc32 (bs : List Nat) : Nat :=
  (bs.foldl crc32UpdateByte 0xFFFFFFFF) ^^^ 0xFFFFFFFF

/-- CRC-32 IEEE of the UTF-8 bytes of a string. -/
def crc32Of (s : String) : Nat :=
  crc32 (utf8Bytes s)

/-- Whether a byte is left unescaped by Go url.QueryEscape: ASCII letters,
digits, and the marks minus, period, underscore, tilde. -/
def unreservedByte (b : Nat) : Bool :=
  decide ((65 ≤ b ∧ b ≤ 90) ∨ (97 ≤ b ∧ b ≤ 122) ∨ (48 ≤ b ∧ b ≤ 57) ∨
    b = 45 ∨ b = 46 ∨ b = 95 ∨ b = 126)

/-- Uppercase hexadecimal digit, for percent escapes. -/
def hexDigit (n : Nat) : Char :=
  if n < 10 then Char.ofNat (48 + n) else Char.ofNat (55 + n)

/-- How Go url.QueryEscape renders one byte: unreserved bytes stand for
themselves, a space becomes a plus, every other byte becomes a percent escape
with uppercase hex digits. -/
def escapeByte (b : Nat) : List Char :=
  if unreservedByte b then [Char.ofNat b]
  else if b = 32 then ['+']
  else ['%', hexDigit (b / 16), hexDigit (b % 16)]

/-- Go url.QueryEscape: escape the UTF-8 bytes of the string one by one. -/
def queryEscape (s : String) : String :=
  String.mk ((utf8Bytes s).flatMap escapeByte)

namespace cache

/-- ByteView (src/Cache/ByteView.go): an immutable holder of bytes.  In this
value-level embedding a Go byte slice is a Lean list, so the defensive copy in
cloneBytes is the identity; buffer aliasing is verified separately in the heap
model (namespace mem). -/
structure ByteView where
  bt : List Nat
  deriving DecidableEq, Repr

/-- cloneBytes (src/Cache/ByteView.go): allocate-and-copy, the identity on
immutable lists. -/
def cloneBytes (b : List Nat) : List Nat := b

/-- NewByteView (src/Cache/ByteView.go): construct from a defensive copy. -/
def NewByteView (b : List Nat) : ByteView := ⟨cloneBytes b⟩

/-- ByteView.Len (src/Cache/ByteView.go). -/
def ByteView.Len (b : ByteView) : Nat := b.bt.length

/-- ByteView.ByteSlice (src/Cache/ByteView.go): a fresh copy of the bytes. -/
def ByteView.ByteSlice (b : ByteView) : List Nat := cloneBytes b.bt

end cache

namespace lru

/-- Modelled from the spec: the LRU store of package geecache/LRU, whose source
is not under src (only its caller cache.Cache is).  Entries are kept
most-recent first; maxBytes is the byte budget.  The eviction hook is omitted:
the only construction in src, cache.Cache.Add, passes a nil hook. -/
structure Cache where
  maxBytes : Int
  entries : List (String × cache.ByteView)
  deriving DecidableEq, Repr

/-- Bytes charged to one entry: len(key) + value.Len() per the spec. -/
def entryBytes (e : String × cache.ByteView) : Nat :=
  (utf8Bytes e.1).length + e.2.Len

/-- Current byte total of the store. -/
def usedBytes (es : List (String × cache.ByteView)) : Nat :=
  (es.map entryBytes).sum

/-- Modelled from the spec: while the budget is positive and exceeded, drop the
least-recent entry.  Per the spec an oversized single entry is retained (the
budget is a soft ceiling enforced by eviction, not an admission gate), so the
loop never drops the sole remaining entry. -/
def evict (maxBytes : Int) (es : List (String × cache.ByteView)) :
    List (String × cache.ByteView) :=
  if _h : 0 < maxBytes ∧ maxBytes < (usedBytes es : Int) ∧ 2 ≤ es.length then
    evict maxBytes es.dropLast
  else es
termination_by es.length
decreasing_by
  simp only [List.length_dropLast]
  omega

/-- Modelled from the spec: lru.New with the hook already fixed to nil. -/
def New (maxBytes : Int) : Cache :=
  { maxBytes := maxBytes, entries := [] }

/-- Modelled from the spec: Add places the entry (fresh or updated) at the
most-recent end, then evicts down to the budget. -/
def Cache.Add (c : Cache) (key : String) (value : cache.ByteView) : Cache :=
  { c with
    entries := evict c.maxBytes
      ((key, value) :: c.entries.filter (fun e => decide (e.1 ≠ key))) }

/-- Modelled from the spec: Get misses on an absent key; on a hit it moves the
entry to the most-recent end and returns the stored value. -/
def Cache.Get (c : Cache) (key : String) : Option cache.ByteView × Cache :=
  match assocLookup c.entries key with
  | some v =>
    (some v, { c with entries := (key, v) :: c.entries.filter (fun e => decide (e.1 ≠ key)) })
  | none => (none, c)

end lru

namespace cache

/-- Cache (src/Cache/LruCache.go): the lock-guarded wrapper around the LRU.
The inner LRU is nil until the first Add.  The RWMutex is not modelled: this
is a sequential embedding, and state threading replaces in-place mutation. -/
structure Cache where
  lru_cache : Option lru.Cache
  Cache_bytes : Int
  deriving DecidableEq, Repr

/-- Cache.Add (src/Cache/LruCache.go): create the inner LRU with the
configured byte budget if absent, then delegate. -/
def Cache.Add (c : Cache) (key : String) (value : ByteView) : Cache :=
  match c.lru_cache with
  | none => { c with lru_cache := some ((lru.New c.Cache_bytes).Add key value) }
  | some l => { c with lru_cache := some (l.Add key value) }

/-- Cache.Get (src/Cache/LruCache.go): a zero ByteView and false when the
inner LRU is absent (nothing is initialized); otherwise delegate, threading
the recency update of the inner store. -/
def Cache.Get (c : Cache) (key : String) : (ByteView × Bool) × Cache :=
  match c.lru_cache with
  | none => ((⟨[]⟩, false), c)
  | some l =>
    match l.Get key with
    | (some v, l2) => ((v, true), { c with lru_cache := some l2 })
    | (none, l2) => ((⟨[]⟩, false), { c with lru_cache := some l2 })

end cache

namespace callbackfunc

/-- CallbackFunc (src/unnamed/part_001, package callbackfunc): the loader
contract, key to bytes or error.  Errors are modelled as strings.  A nil Go
function value is represented by Option at the construction boundary. -/
abbrev CallbackFunc := String → Except String (List Nat)

end callbackfunc

namespace group

/-- The peer-getter contract (pickpeer.PeerGetter): the remote node answers a
(group, key) request with value bytes or an error. -/
abbrev PeerGetter := String → String → Except String (List Nat)

/-- The peer-picker contract (pickpeer.PeerPicker): some getter when a remote
peer owns the key, none when the pick declines (the Go pair (nil, false)). -/
abbrev PeerPicker := String → Option PeerGetter

/-- Group (src/Cache/LruCache.go, package group): name, local store, loader,
optional peer-picker.  The singleflight loader field is not carried: this is a
sequential embedding and Do is modelled inside Group.getDetail. -/
structure Group where
  name : String
  cache : cache.Cache
  f : callbackfunc.CallbackFunc
  peers : Option PeerPicker

/-- The process-wide group registry (the groups map), passed explicitly. -/
abbrev Registry := List (String × Group)

/-- NewGroup (src/Cache/LruCache.go): panics on a nil loader, modelled as an
error result with the registry returned unchanged (the Go panic fires before
any registry write); otherwise builds the group with an empty local store and
no peer-picker and installs it in the registry (map write by prepending). -/
def NewGroup (reg : Registry) (name : String) (cache_bytes : Int)
    (f : Option callbackfunc.CallbackFunc) : Except String Group × Registry :=
  match f with
  | none => (.error "should need callback function", reg)
  | some fn =>
    let g : Group :=
      { name := name
        cache := { lru_cache := none, Cache_bytes := cache_bytes }
        f := fn
        peers := none }
    (.ok g, (name, g) :: reg)

/-- GetGroup (src/Cache/LruCache.go): registry lookup, nil as none. -/
def GetGroup (reg : Registry) (name : String) : Option Group :=
  assocLookup reg name

/-- RegisterPeers (src/Cache/LruCache.go): panics when a picker is already
registered (modelled as an error result, the group value untouched);
otherwise assigns the picker. -/
def RegisterPeers (g : Group) (peers : PeerPicker) : Except String Group :=
  match g.peers with
  | some _ => .error "RegisterPeerPicker called more than once"
  | none => .ok { g with peers := some peers }

/-- Group.getFromPeer (src/Cache/LruCache.go): build the request from the
group name and key, ask the peer, surface its error or its value bytes. -/
def Group.getFromPeer (g : Group) (peer : PeerGetter) (key : String) :
    Except String (List Nat) :=
  peer g.name key

/-- Everything observable about one Group.Get call: the returned result,
whether the loader g.f was invoked, and the local store state when the call
returns.  The source of Group.Get never reads or writes g.cache, so cacheAfter
is g.cache on every path of the definition below. -/
structure GetOutcome where
  res : Except String cache.ByteView
  loaderCalled : Bool
  cacheAfter : cache.Cache

/-- Group.Get (src/Cache/LruCache.go), embedded sequentially.  The singleflight
source is not under src; per spec 4.4 a Do with no concurrent call in flight
creates a fresh Call, runs fn on the calling thread and returns its result, so
the body of the closure passed to loader.Do is inlined here.  If a picker is
registered and picks a remote peer, a successful peer fetch is returned
directly; a failed peer fetch is logged and falls through to the loader, whose
error is surfaced verbatim and whose bytes are wrapped in a fresh ByteView. -/
def Group.getDetail (g : Group) (key : String) : GetOutcome :=
  match g.peers with
  | some picker =>
    match picker key with
    | some peer =>
      match g.getFromPeer peer key with
      | .ok bytes =>
        { res := .ok (cache.NewByteView bytes), loaderCalled := false, cacheAfter := g.cache }
      | .error _ =>
        match g.f key with
        | .error e => { res := .error e, loaderCalled := true, cacheAfter := g.cache }
        | .ok bytes =>
          { res := .ok (cache.NewByteView bytes), loaderCalled := true, cacheAfter := g.cache }
    | none =>
      match g.f key with
      | .error e => { res := .error e, loaderCalled := true, cacheAfter := g.cache }
      | .ok bytes =>
        { res := .ok (cache.NewByteView bytes), loaderCalled := true, cacheAfter := g.cache }
  | none =>
    match g.f key with
    | .error e => { res := .error e, loaderCalled := true, cacheAfter := g.cache }
    | .ok bytes =>
      { res := .ok (cache.NewByteView bytes), loaderCalled := true, cacheAfter := g.cache }

/-- The (ByteView, error) pair Group.Get returns: a zero ByteView alongside
any error, the fetched view alongside nil otherwise. -/
def Group.Get (g : Group) (key : String) : cache.ByteView × Option String :=
  match (g.getDetail key).res with
  | .ok v => (v, none)
  | .error e => (⟨[]⟩, some e)

/-- The group as it stands once one Get has returned: its local store replaced
by the state the call leaves behind.  Used to state claims about an immediately
subsequent Get. -/
def Group.afterGet (g : Group) (key : String) : Group :=
  { g with cache := (g.getDetail key).cacheAfter }

/-- Whether no remote peer is consulted for this key: no picker registered, or
the registered picker declines. -/
def Group.declines (g : Group) (key : String) : Bool :=
  match g.peers with
  | none => true
  | some picker => (picker key).isNone

end group

namespace consistenthash

/-- Modelled from the spec: the consistent-hash ring of package
geecache/ConsistentHash, whose source is not under src (only its caller
httpserver.HttpAddr is).  The hash function is fixed to the default, CRC-32
IEEE of UTF-8 bytes: the only construction in src passes a nil hash function,
which selects exactly that default. -/
structure Map where
  replicas : Nat
  keys : List Nat
  hashMap : List (Nat × String)
  deriving DecidableEq, Repr

/-- Modelled from the spec: consistenthash.New with the hash already fixed to
the CRC-32 default. -/
def New (replicas : Nat) : Map :=
  { replicas := replicas, keys := [], hashMap := [] }

/-- Modelled from the spec: for each node n and each i below replicas, append
the virtual point crc32(ascii(i) ++ n) and record it as owned by n, then sort
the point vector ascendingly.  Map writes are modelled by prepending, so on a
hash collision the last writer wins on lookup. -/
def Map.AddKeys (m : Map) (ks : List String) : Map :=
  let pts := ks.flatMap (fun k =>
    (List.range m.replicas).map (fun i => (crc32Of (toString i ++ k), k)))
  { m with
    keys := (m.keys ++ pts.map Prod.fst).mergeSort (fun a b => decide (a ≤ b))
    hashMap := pts.foldl (fun acc p => p :: acc) m.hashMap }

/-- Modelled from the spec: an empty ring yields the empty string; otherwise
the owner is the node of the first virtual point at or after crc32(key),
wrapping to index 0 past the end.  A missing map entry yields the Go zero
value, the empty string. -/
def Map.Get (m : Map) (key : String) : String :=
  if m.keys.length = 0 then ""
  else
    let h := crc32Of key
    let idx := m.keys.findIdx (fun x => decide (h ≤ x))
    match assocLookup m.hashMap (m.keys.getD (idx % m.keys.length) 0) with
    | some n => n
    | none => ""

end consistenthash

namespace httpclient

/-- HttpClient (src/HttpClient/httpclient.go): a peer handle, just a base
URL. -/
structure HttpClient where
  BaseURL : String
  deriving DecidableEq, Repr

/-- The URL HttpClient.Get requests (src/HttpClient/httpclient.go): the base
URL, the query-escaped group, a slash, the query-escaped key.  The network
exchange itself is outside this embedding. -/
def HttpClient.GetURL (h : HttpClient) (group key : String) : String :=
  h.BaseURL ++ queryEscape group ++ "/" ++ queryEscape key

end httpclient

namespace httpserver

/-- defaultBasePath (src/unnamed/part_001, package httpserver). -/
def defaultBasePath : String := "/_geecache/"

/-- The replica count constant num (src/unnamed/part_001). -/
def num : Nat := 50

/-- HttpAddr (src/unnamed/part_001): host identity, base path, ring and peer
handles.  The ring pointer is nil until the first Set, hence the Option; the
mutex is not modelled in this sequential embedding. -/
structure HttpAddr where
  Host : String
  Path : String
  peers : Option consistenthash.Map
  HttpClients : List (String × httpclient.HttpClient)
  deriving DecidableEq, Repr

/-- NewHttpAddr (src/unnamed/part_001). -/
def NewHttpAddr (host : String) : HttpAddr :=
  { Host := host, Path := defaultBasePath, peers := none, HttpClients := [] }

/-- HttpAddr.Set (src/unnamed/part_001): a fresh ring with the configured
replica count over exactly the given peers, and a rebuilt handle map with one
client per peer whose base URL is the peer followed by the path prefix. -/
def HttpAddr.Set (p : HttpAddr) (peers : List String) : HttpAddr :=
  { p with
    peers := some ((consistenthash.New num).AddKeys peers)
    HttpClients := peers.map (fun peer => (peer, { BaseURL := peer ++ p.Path })) }

/-- HttpAddr.PickPeer (src/unnamed/part_001): none models the nil-ring panic
(PickPeer before any Set); after a Set it returns the Go pair (client, ok):
the handle-map lookup with true when the ring owner is neither empty nor the
local host, (nil, false) otherwise. -/
def HttpAddr.PickPeer (p : HttpAddr) (key : String) :
    Option (Option httpclient.HttpClient × Bool) :=
  match p.peers with
  | none => none
  | some ring =>
    let peer := ring.Get key
    if peer ≠ "" ∧ peer ≠ p.Host then some (assocLookup p.HttpClients peer, true)
    else some (none, false)

/-- The path separator the router splits on. -/
def slash : Char := '/'

/-- Response bodies: c.String sends text, c.Data sends bytes. -/
inductive Body where
  | text (s : String)
  | bin (bs : List Nat)
  deriving DecidableEq, Repr

/-- What Serve writes back: status, the Content-Type header it sets explicitly
(gin defaults for the text paths are not modelled), and the body. -/
structure Response where
  status : Nat
  contentType : Option String
  body : Body
  deriving DecidableEq, Repr

/-- The group/key extraction in Serve (src/HttpServer/serve.go): drop the base
path, then split at the first slash (strings.SplitN with limit 2); none means
no slash remained and the request is malformed.  Go slices bytes where this
model slices characters; the two coincide on the ASCII base path the router
uses. -/
def extractGroupKey (basePath : String) (path : String) :
    Option (List Char × List Char) :=
  splitFirst slash (path.data.drop basePath.data.length)

/-- Serve (src/HttpServer/serve.go).  The registry is passed explicitly (Go
keeps it ambient in package group); marshal stands for proto.Marshal of the
Response envelope, whose generated source is not under src, so it is kept
abstract as a fallible encoder per spec 6.  A path without the base-path
prefix makes the Go handler panic, modelled as none. -/
def Serve (reg : group.Registry) (marshal : List Nat → Except String (List Nat))
    (basePath : String) (path : String) : Option Response :=
  if basePath.data.isPrefixOf path.data then
    some (match extractGroupKey basePath path with
      | none => { status := 400, contentType := none, body := .text "Bad Request" }
      | some (gseg, kseg) =>
        match group.GetGroup reg (String.mk gseg) with
        | none => { status := 404, contentType := none, body := .text "Group Not Found" }
        | some grp =>
          match grp.Get (String.mk kseg) with
          | (_, some e) => { status := 500, contentType := none, body := .text e }
          | (bv, none) =>
            match marshal bv.ByteSlice with
            | .error e => { status := 500, contentType := none, body := .text e }
            | .ok enc =>
              { status := 200, contentType := some "application/octet-stream", body := .bin enc })
  else none

end httpserver

namespace mem

/-- A heap of byte buffers, used to verify the aliasing behaviour of ByteView:
Go slices are mutable views into buffers, so here a slice is an index into the
heap and mutation is an explicit heap update. -/
structure Mem where
  bufs : List (List Nat)
  deriving DecidableEq, Repr

/-- A slice reference: an index into the heap. -/
abbrev BufId := Nat

/-- Allocate a fresh buffer holding the given contents; returns the new heap
and the fresh reference. -/
def Mem.alloc (m : Mem) (content : List Nat) : Mem × BufId :=
  ({ bufs := m.bufs ++ [content] }, m.bufs.length)

/-- The contents a reference designates (a dangling reference reads empty). -/
def Mem.read (m : Mem) (i : BufId) : List Nat :=
  m.bufs.getD i []

/-- Mutate one byte of the referenced buffer in place. -/
def Mem.write (m : Mem) (i : BufId) (idx val : Nat) : Mem :=
  { bufs := m.bufs.set i ((m.bufs.getD i []).set idx val) }

/-- cloneBytes (src/Cache/ByteView.go) in the heap model: make a new buffer of
the same length and copy the contents over. -/
def cloneBytes (m : Mem) (b : BufId) : Mem × BufId :=
  m.alloc (m.read b)

/-- ByteView in the heap model: it owns a reference to its internal buffer. -/
structure ByteView where
  bt : BufId
  deriving DecidableEq, Repr

/-- NewByteView (src/Cache/ByteView.go) in the heap model: the view keeps a
defensive copy of the caller buffer, never the buffer itself. -/
def NewByteView (m : Mem) (b : BufId) : Mem × ByteView :=
  let r := cloneBytes m b
  (r.1, ⟨r.2⟩)

/-- ByteView.Len in the heap model. -/
def ByteView.Len (v : ByteView) (m : Mem) : Nat :=
  (m.read v.bt).length

/-- ByteView.ByteSlice in the heap model: a fresh copy of the internal buffer
is handed out, never the buffer itself. -/
def ByteView.ByteSlice (v : ByteView) (m : Mem) : Mem × BufId :=
  cloneBytes m v.bt

/-- ByteView.String in the heap model: the bytes, converted to an immutable
string (string conversion copies in Go). -/
def ByteView.Str (v : ByteView) (m : Mem) : List Nat :=
  m.read v.bt

end mem

/-! ## General lemmas about the shared helpers -/

theorem splitFirst_of_not_mem {sep : Char} {l : List Char} (h : ∀ c ∈ l, c ≠ sep) :
    splitFirst sep l = none := by
  induction l with
  | nil => rfl
  | cons c cs ih =>
    simp only [splitFirst]
    rw [if_neg (h c (by simp)), ih (fun x hx => h x (by simp [hx]))]

theorem splitFirst_append {sep : Char} {a b : List Char} (h : ∀ c ∈ a, c ≠ sep) :
    splitFirst sep (a ++ sep :: b) = some (a, b) := by
  induction a with
  | nil => simp [splitFirst]
  | cons c cs ih =>
    have hcs := ih (fun x hx => h x (List.mem_cons_of_mem _ hx))
    have hc := h c (List.mem_cons_self _ _)
    simp only [List.cons_append, splitFirst, List.append_eq, if_neg hc, hcs]

theorem char_toNat_lt (c : Char) : c.toNat < 1114112 := by
  rcases c.valid with h | h
  · exact Nat.lt_trans h (by norm_num)
  · exact h.2

theorem charUtf8_lt (c : Char) : ∀ x ∈ charUtf8 c, x < 256 := by
  intro x hx
  have hc := char_toNat_lt c
  have hor : ∀ a b : Nat, a < 2 ^ 8 → b < 2 ^ 8 → a ||| b < 2 ^ 8 := by
    intro a b ha hb
    exact Nat.or_lt_two_pow ha hb
  have hand : ∀ a : Nat, a &&& 63 < 256 :=
    fun a => Nat.lt_of_le_of_lt Nat.and_le_right (by norm_num)
  have hshift : ∀ a k : Nat, a < 2 ^ k * 256 → a >>> k < 256 := by
    intro a k ha
    rw [Nat.shiftRight_eq_div_pow]
    exact Nat.div_lt_of_lt_mul ha
  by_cases h1 : c.toNat < 128
  · simp [charUtf8, h1] at hx
    omega
  · by_cases h2 : c.toNat < 2048
    · simp [charUtf8, h1, h2] at hx
      rcases hx with h3 | h3 <;> subst h3
      · exact hor _ _ (by norm_num) (hshift _ 6 (by omega))
      · exact hor _ _ (by norm_num) (hand _)
    · by_cases h3 : c.toNat < 65536
      · simp [charUtf8, h1, h2, h3] at hx
        rcases hx with h4 | h4 | h4 <;> subst h4
        · exact hor _ _ (by norm_num) (hshift _ 12 (by omega))
        · exact hor _ _ (by norm_num) (hand _)
        · exact hor _ _ (by norm_num) (hand _)
      · simp [charUtf8, h1, h2, h3] at hx
        rcases hx with h4 | h4 | h4 | h4 <;> subst h4
        · exact hor _ _ (by norm_num) (hshift _ 18 (by omega))
        · exact hor _ _ (by norm_num) (hand _)
        · exact hor _ _ (by norm_num) (hand _)
        · exact hor _ _ (by norm_num) (hand _)

theorem utf8Bytes_lt (s : String) : ∀ x ∈ utf8Bytes s, x < 256 := by
  intro x hx
  rw [utf8Bytes, List.mem_flatMap] at hx
  obtain ⟨c, _, hc⟩ := hx
  exact charUtf8_lt c x hc

set_option maxRecDepth 4096 in
theorem slash_not_mem_escapeByte : ∀ b < 256, httpserver.slash ∉ escapeByte b := by
  decide

theorem not_slash_of_mem_queryEscape (s : String) :
    ∀ c ∈ (queryEscape s).data, c ≠ httpserver.slash := by
  intro c hc
  have hc2 : c ∈ (utf8Bytes s).flatMap escapeByte := hc
  rw [List.mem_flatMap] at hc2
  obtain ⟨b, hb, hcb⟩ := hc2
  intro he
  subst he
  exact slash_not_mem_escapeByte b (utf8Bytes_lt s b hb) hcb

theorem string_append_right_cancel {a b c : String} (h : a ++ c = b ++ c) : a = b := by
  apply String.ext
  have hd : a.data ++ c.data = b.data ++ c.data := by
    rw [← String.data_append, ← String.data_append, h]
  exact List.append_cancel_right hd

theorem assocLookup_map_baseURL (path q : String) (ps : List String)
    (h : httpclient.HttpClient)
    (hl : assocLookup
        (ps.map (fun p => (p, ({ BaseURL := p ++ path } : httpclient.HttpClient)))) q =
      some h) :
    h = { BaseURL := q ++ path } := by
  induction ps with
  | nil => simp [assocLookup] at hl
  | cons p rest ih =>
    simp only [List.map_cons, assocLookup] at hl
    by_cases hq : q = p
    · subst hq
      rw [if_pos rfl] at hl
      exact (Option.some.injEq _ _ ▸ hl).symm
    · rw [if_neg hq] at hl
      exact ih hl

theorem assocLookup_map_eq (path q : String) (ps : List String) :
    assocLookup
        (ps.map (fun p => (p, ({ BaseURL := p ++ path } : httpclient.HttpClient)))) q =
      if q ∈ ps then some { BaseURL := q ++ path } else none := by
  induction ps with
  | nil => simp [assocLookup]
  | cons p rest ih =>
    simp only [List.map_cons, assocLookup]
    by_cases hq : q = p
    · subst hq
      simp
    · rw [if_neg hq, ih]
      simp [List.mem_cons, hq]

theorem getD_concat_self (l : List (List Nat)) (c : List Nat) :
    (l ++ [c]).getD l.length [] = c := by
  induction l with
  | nil => rfl
  | cons x xs ih =>
    simp only [List.cons_append, List.length_cons, List.getD_cons_succ]
    exact ih

theorem getD_set_ne (l : List (List Nat)) (i j : Nat) (x : List Nat) (h : j ≠ i) :
    (l.set i x).getD j [] = l.getD j [] := by
  rw [List.getD_eq_getElem?_getD, List.getD_eq_getElem?_getD,
    List.getElem?_set_ne (fun hh => h hh.symm)]

/-! ## Lemmas about the Group read path -/

theorem getDetail_cacheAfter (g : group.Group) (key : String) :
    (g.getDetail key).cacheAfter = g.cache := by
  unfold group.Group.getDetail
  repeat' split
  all_goals rfl

theorem afterGet_eq (g : group.Group) (key : String) : g.afterGet key = g := by
  unfold group.Group.afterGet
  rw [getDetail_cacheAfter]

theorem getDetail_no_peers (g : group.Group) (key : String) (hp : g.peers = none) :
    g.getDetail key =
      (match g.f key with
        | .error e => { res := .error e, loaderCalled := true, cacheAfter := g.cache }
        | .ok bytes =>
          { res := .ok (cache.NewByteView bytes), loaderCalled := true,
            cacheAfter := g.cache }) := by
  unfold group.Group.getDetail
  rw [hp]

theorem getDetail_pick_declined (g : group.Group) (key : String)
    (picker : group.PeerPicker) (hp : g.peers = some picker) (hd : picker key = none) :
    g.getDetail key =
      (match g.f key with
        | .error e => { res := .error e, loaderCalled := true, cacheAfter := g.cache }
        | .ok bytes =>
          { res := .ok (cache.NewByteView bytes), loaderCalled := true,
            cacheAfter := g.cache }) := by
  unfold group.Group.getDetail
  simp only [hp, hd]

theorem getDetail_peer_failed (g : group.Group) (key : String)
    (picker : group.PeerPicker) (peer : group.PeerGetter) (pe : String)
    (hp : g.peers = some picker) (hpick : picker key = some peer)
    (hfail : peer g.name key = .error pe) :
    g.getDetail key =
      (match g.f key with
        | .error e => { res := .error e, loaderCalled := true, cacheAfter := g.cache }
        | .ok bytes =>
          { res := .ok (cache.NewByteView bytes), loaderCalled := true,
            cacheAfter := g.cache }) := by
  unfold group.Group.getDetail group.Group.getFromPeer
  simp only [hp, hpick, hfail]

theorem evict_singleton (mb : Int) (e : String × cache.ByteView) :
    lru.evict mb [e] = [e] := by
  unfold lru.evict
  rw [dif_neg]
  rintro ⟨-, -, h2⟩
  simp at h2

/-! ## Claim theorems -/

/-- Claim C1, at the failing input: a group whose loader succeeds with the
bytes of 630 and which has no peers.  The first Get succeeds and invokes the
loader, yet the local store when Get returns is exactly the store before the
call (still empty: a store Get of the key misses), and the immediately
subsequent Get invokes the loader again - the source of Group.Get never reads
or writes g.cache, contradicting the claimed read-through caching. -/
theorem C1_no_local_caching :
    (let g : group.Group :=
      { name := "scores", cache := { lru_cache := none, Cache_bytes := 1024 },
        f := fun _ => .ok [54, 51, 48], peers := none }
     (g.getDetail "Tom").res = .ok (cache.NewByteView [54, 51, 48])
     ∧ (g.getDetail "Tom").loaderCalled = true
     ∧ (g.getDetail "Tom").cacheAfter = g.cache
     ∧ ((g.getDetail "Tom").cacheAfter.Get "Tom").1 = (⟨[]⟩, false)
     ∧ ((g.afterGet "Tom").getDetail "Tom").loaderCalled = true) :=
  ⟨rfl, rfl, rfl, rfl, rfl⟩

/-- Claim C2: when no remote peer is consulted (no picker, or the picker
declines) and the loader fails with e, Get returns exactly (zero ByteView, e),
the local store is unchanged, the loader was invoked, and an immediately
subsequent Get invokes the loader again (no negative caching). -/
theorem C2_loader_error_surfaced (g : group.Group) (key e : String)
    (hd : g.declines key = true) (hf : g.f key = .error e) :
    g.Get key = (⟨[]⟩, some e)
    ∧ (g.getDetail key).cacheAfter = g.cache
    ∧ (g.getDetail key).loaderCalled = true
    ∧ ((g.afterGet key).getDetail key).loaderCalled = true := by
  have hdet : g.getDetail key =
      { res := .error e, loaderCalled := true, cacheAfter := g.cache } := by
    rcases hp : g.peers with _ | picker
    · rw [getDetail_no_peers g key hp, hf]
    · have hnone : picker key = none := by
        unfold group.Group.declines at hd
        rw [hp] at hd
        exact Option.isNone_iff_eq_none.mp hd
      rw [getDetail_pick_declined g key picker hp hnone, hf]
  refine ⟨?_, ?_, ?_, ?_⟩
  · unfold group.Group.Get
    rw [hdet]
  · rw [hdet]
  · rw [hdet]
  · rw [afterGet_eq, hdet]

/-- Witness for C2 at a concrete group: loader always fails with not-found,
no peer-picker registered. -/
theorem C2_loader_error_surfaced_witness :
    (let g : group.Group :=
      { name := "scores", cache := { lru_cache := none, Cache_bytes := 1024 },
        f := fun _ => .error "not-found", peers := none }
     g.Get "Ghost" = (⟨[]⟩, some "not-found")
     ∧ (g.getDetail "Ghost").cacheAfter = g.cache
     ∧ (g.getDetail "Ghost").loaderCalled = true
     ∧ ((g.afterGet "Ghost").getDetail "Ghost").loaderCalled = true) :=
  C2_loader_error_surfaced _ "Ghost" "not-found" rfl rfl

/-- Claim C3: when the picker selects a remote peer and the peer fetch fails,
the peer error is never surfaced: the loader is invoked and the Get result is
exactly what the loaders (bytes, error) outcome dictates; the local store is
unchanged. -/
theorem C3_peer_error_downgraded (g : group.Group) (key : String)
    (picker : group.PeerPicker) (peer : group.PeerGetter) (pe : String)
    (hp : g.peers = some picker) (hpick : picker key = some peer)
    (hfail : peer g.name key = .error pe) :
    (g.getDetail key).loaderCalled = true
    ∧ g.Get key =
        (match g.f key with
          | .ok bs => (cache.NewByteView bs, none)
          | .error e => (⟨[]⟩, some e))
    ∧ (g.getDetail key).cacheAfter = g.cache := by
  have hdet := getDetail_peer_failed g key picker peer pe hp hpick hfail
  refine ⟨?_, ?_, ?_⟩
  · rw [hdet]
    rcases g.f key with e | bs <;> rfl
  · unfold group.Group.Get
    rw [hdet]
    rcases g.f key with e | bs <;> rfl
  · rw [hdet]
    rcases g.f key with e | bs <;> rfl

/-- Witness for C3 at a concrete group: the picker always picks a peer whose
fetch fails, the loader succeeds with the bytes of 630. -/
theorem C3_peer_error_downgraded_witness :
    (let g : group.Group :=
      { name := "scores", cache := { lru_cache := none, Cache_bytes := 1024 },
        f := fun _ => .ok [54, 51, 48],
        peers := some (fun _ => some (fun _ _ => .error "peer down")) }
     (g.getDetail "Tom").loaderCalled = true
     ∧ g.Get "Tom" = (cache.NewByteView [54, 51, 48], none)
     ∧ (g.getDetail "Tom").cacheAfter = g.cache) :=
  C3_peer_error_downgraded _ "Tom" _ _ "peer down" rfl rfl rfl

/-- Claim C5: a zero-valued ConcurrentStore with only its byte budget set is
usable without further setup: Get on a store whose inner LRU was never created
returns a zero ByteView with false and does not create the inner LRU; the
first Add creates the inner LRU with the configured budget and delegates to
it, so a subsequent Get of the added key returns it with true. -/
theorem C5_lazy_init (budget : Int) (k : String) (v : cache.ByteView) :
    (({ lru_cache := none, Cache_bytes := budget } : cache.Cache).Get k =
      ((⟨[]⟩, false), { lru_cache := none, Cache_bytes := budget }))
    ∧ (({ lru_cache := none, Cache_bytes := budget } : cache.Cache).Add k v =
      { lru_cache := some ((lru.New budget).Add k v), Cache_bytes := budget })
    ∧ ((({ lru_cache := none, Cache_bytes := budget } : cache.Cache).Add k v).Get k).1 =
      (v, true) := by
  refine ⟨rfl, rfl, ?_⟩
  have hadd : (lru.New budget).Add k v = { maxBytes := budget, entries := [(k, v)] } := by
    unfold lru.Cache.Add lru.New
    simp [evict_singleton]
  show ((({ lru_cache := none, Cache_bytes := budget } : cache.Cache).Add k v).Get k).1 =
    (v, true)
  unfold cache.Cache.Add
  simp only []
  rw [hadd]
  unfold cache.Cache.Get lru.Cache.Get
  simp [assocLookup]

/-- Claim C9: a nil loader makes NewGroup abort with nothing registered; a
non-nil loader never aborts; a first RegisterPeers assigns the picker without
aborting; a second RegisterPeers aborts (the error return leaves the caller
with the first registration in place). -/
theorem C9_programming_errors :
    (∀ (reg : group.Registry) (name : String) (b : Int),
      group.NewGroup reg name b none = (.error "should need callback function", reg))
    ∧ (∀ (reg : group.Registry) (name : String) (b : Int)
        (fn : callbackfunc.CallbackFunc),
      (group.NewGroup reg name b (some fn)).1.isOk = true)
    ∧ (∀ (g : group.Group) (p : group.PeerPicker), g.peers = none →
      group.RegisterPeers g p = .ok { g with peers := some p })
    ∧ (∀ (g : group.Group) (p q : group.PeerPicker), g.peers = some p →
      group.RegisterPeers g q = .error "RegisterPeerPicker called more than once") := by
  refine ⟨fun _ _ _ => rfl, fun _ _ _ _ => rfl, ?_, ?_⟩
  · intro g p h
    unfold group.RegisterPeers
    rw [h]
  · intro g p q h
    unfold group.RegisterPeers
    rw [h]

/-- Witness for C9 at concrete inputs: a nil-loader NewGroup leaves an empty
registry empty, a first RegisterPeers succeeds, a second aborts. -/
theorem C9_programming_errors_witness :
    (group.NewGroup [] "scores" 1024 none).2 = ([] : group.Registry)
    ∧ group.RegisterPeers
        { name := "scores", cache := { lru_cache := none, Cache_bytes := 0 },
          f := fun _ => .ok [], peers := none } (fun _ => none) =
      .ok { name := "scores", cache := { lru_cache := none, Cache_bytes := 0 },
            f := fun _ => .ok [], peers := some (fun _ => none) }
    ∧ group.RegisterPeers
        { name := "scores", cache := { lru_cache := none, Cache_bytes := 0 },
          f := fun _ => .ok [], peers := some (fun _ => none) } (fun _ => none) =
      .error "RegisterPeerPicker called more than once" :=
  ⟨congrArg Prod.snd (C9_programming_errors.1 [] "scores" 1024),
   C9_programming_errors.2.2.1 _ _ rfl,
   C9_programming_errors.2.2.2 _ _ _ rfl⟩

theorem getD_append_lt (l : List (List Nat)) (c : List Nat) (i : Nat) (h : i < l.length) :
    (l ++ [c]).getD i [] = l.getD i [] := by
  simp [List.getD_eq_getElem?_getD, List.getElem?_append, h]

/-- Claim C4: the view constructed over a caller buffer holds byte-equal
contents; mutating the caller buffer afterwards changes none of the accessors
(read contents, Len, String), and mutating the buffer handed out by ByteSlice
does not change the view either: both construction and ByteSlice copy. -/
theorem C4_byteview_defensive (m : mem.Mem) (b : mem.BufId) (hb : b < m.bufs.length)
    (idx val jdx jval : Nat) :
    ((mem.NewByteView m b).1.read (mem.NewByteView m b).2.bt = m.read b)
    ∧ (((mem.NewByteView m b).2.ByteSlice (mem.NewByteView m b).1).1.read
        ((mem.NewByteView m b).2.ByteSlice (mem.NewByteView m b).1).2 = m.read b)
    ∧ (((mem.NewByteView m b).1.write b idx val).read (mem.NewByteView m b).2.bt = m.read b)
    ∧ ((mem.NewByteView m b).2.Len ((mem.NewByteView m b).1.write b idx val) =
        (m.read b).length)
    ∧ ((mem.NewByteView m b).2.Str ((mem.NewByteView m b).1.write b idx val) = m.read b)
    ∧ ((((mem.NewByteView m b).2.ByteSlice (mem.NewByteView m b).1).1.write
          ((mem.NewByteView m b).2.ByteSlice (mem.NewByteView m b).1).2 jdx jval).read
        (mem.NewByteView m b).2.bt = m.read b) := by
  have hne1 : m.bufs.length ≠ b := (Nat.ne_of_lt hb).symm
  have hne2 : m.bufs.length ≠ (m.bufs ++ [m.read b]).length := by
    simp
  refine ⟨?_, ?_, ?_, ?_, ?_, ?_⟩ <;>
    simp only [mem.NewByteView, mem.ByteView.ByteSlice, mem.ByteView.Len, mem.ByteView.Str,
      mem.cloneBytes, mem.Mem.alloc, mem.Mem.read, mem.Mem.write]
  · exact getD_concat_self _ _
  · exact (getD_concat_self _ _).trans (getD_concat_self _ _)
  · exact (getD_set_ne _ _ _ _ hne1).trans (getD_concat_self _ _)
  · exact congrArg List.length ((getD_set_ne _ _ _ _ hne1).trans (getD_concat_self _ _))
  · exact (getD_set_ne _ _ _ _ hne1).trans (getD_concat_self _ _)
  · exact (getD_set_ne _ _ _ _ hne2).trans
      ((getD_append_lt _ _ _ (by simp)).trans (getD_concat_self _ _))

/-- Witness for C4 at a one-buffer heap holding bytes 1 2 3. -/
theorem C4_byteview_defensive_witness :
    (0 : Nat) < (mem.Mem.mk [[1, 2, 3]]).bufs.length
    ∧ ((mem.NewByteView ⟨[[1, 2, 3]]⟩ 0).1.write 0 1 9).read
        (mem.NewByteView ⟨[[1, 2, 3]]⟩ 0).2.bt = [1, 2, 3] :=
  ⟨by decide, (C4_byteview_defensive ⟨[[1, 2, 3]]⟩ 0 (by decide) 1 9 0 0).2.2.1⟩

theorem pickPeer_some (p : httpserver.HttpAddr) (ring : consistenthash.Map) (k : String)
    (hp : p.peers = some ring) :
    p.PickPeer k =
      some (if ring.Get k = "" ∨ ring.Get k = p.Host then (none, false)
            else (assocLookup p.HttpClients (ring.Get k), true)) := by
  unfold httpserver.HttpAddr.PickPeer
  simp only [hp]
  by_cases h1 : ring.Get k = ""
  · simp [h1]
  · by_cases h2 : ring.Get k = p.Host
    · simp [h1, h2]
    · simp [h1, h2]

/-- Claim C6: after any Set, PickPeer returns (nil, false) exactly when the
ring owner is the empty string or the local host, and otherwise the handle-map
entry of the owner with true; and no returned handle ever has the local base
URL (host followed by the path prefix). -/
theorem C6_pickPeer_excludes_self (host : String) (ps : List String) (k : String) :
    (((httpserver.NewHttpAddr host).Set ps).PickPeer k =
      some
        (if ((consistenthash.New httpserver.num).AddKeys ps).Get k = "" ∨
            ((consistenthash.New httpserver.num).AddKeys ps).Get k = host
         then (none, false)
         else (assocLookup ((httpserver.NewHttpAddr host).Set ps).HttpClients
                 (((consistenthash.New httpserver.num).AddKeys ps).Get k), true)))
    ∧ Option.all
        (fun r => Option.all
          (fun h => decide (h.BaseURL ≠ host ++ httpserver.defaultBasePath)) r.1)
        (((httpserver.NewHttpAddr host).Set ps).PickPeer k) = true := by
  have h1 := pickPeer_some ((httpserver.NewHttpAddr host).Set ps)
    ((consistenthash.New httpserver.num).AddKeys ps) k rfl
  have hhost : ((httpserver.NewHttpAddr host).Set ps).Host = host := rfl
  rw [hhost] at h1
  refine ⟨h1, ?_⟩
  rw [h1]
  by_cases hcond : ((consistenthash.New httpserver.num).AddKeys ps).Get k = "" ∨
      ((consistenthash.New httpserver.num).AddKeys ps).Get k = host
  · rw [if_pos hcond]
    rfl
  · rw [if_neg hcond]
    show Option.all (fun h => decide (h.BaseURL ≠ host ++ httpserver.defaultBasePath))
      (assocLookup ((httpserver.NewHttpAddr host).Set ps).HttpClients
        (((consistenthash.New httpserver.num).AddKeys ps).Get k)) = true
    cases hlk : assocLookup ((httpserver.NewHttpAddr host).Set ps).HttpClients
        (((consistenthash.New httpserver.num).AddKeys ps).Get k) with
    | none => rfl
    | some h =>
      have hBase : h =
          { BaseURL := ((consistenthash.New httpserver.num).AddKeys ps).Get k ++
              httpserver.defaultBasePath } :=
        assocLookup_map_baseURL httpserver.defaultBasePath _ ps h hlk
      rw [hBase]
      show decide (((consistenthash.New httpserver.num).AddKeys ps).Get k ++
        httpserver.defaultBasePath ≠ host ++ httpserver.defaultBasePath) = true
      apply decide_eq_true
      intro he
      exact (not_or.mp hcond).2 (string_append_right_cancel he)

/-- Claim C7: Set replaces membership wholesale: the ring is rebuilt from
exactly the given peers with the configured replica count, the handle map has
one entry per given peer whose base URL is the peer followed by the path
prefix (and looks up nothing else), the result does not depend on any earlier
Set, and host and path survive untouched. -/
theorem C7_set_replaces_wholesale (st : httpserver.HttpAddr) (ps ps0 : List String)
    (q : String) :
    ((st.Set ps).peers = some ((consistenthash.New httpserver.num).AddKeys ps))
    ∧ ((st.Set ps).HttpClients.map Prod.fst = ps)
    ∧ (assocLookup (st.Set ps).HttpClients q =
        if q ∈ ps then some { BaseURL := q ++ st.Path } else none)
    ∧ ((st.Set ps0).Set ps = st.Set ps)
    ∧ ((st.Set ps).Host = st.Host ∧ (st.Set ps).Path = st.Path) := by
  refine ⟨rfl, ?_, ?_, rfl, rfl, rfl⟩
  · show (ps.map (fun peer =>
      (peer, ({ BaseURL := peer ++ st.Path } : httpclient.HttpClient)))).map Prod.fst = ps
    rw [List.map_map]
    exact List.map_id ps
  · exact assocLookup_map_eq st.Path q ps

theorem serve_eq (reg : group.Registry) (marshal : List Nat → Except String (List Nat))
    (bp : String) (rest : List Char) :
    httpserver.Serve reg marshal bp (String.mk (bp.data ++ rest)) =
      some (match splitFirst httpserver.slash rest with
        | none => { status := 400, contentType := none, body := .text "Bad Request" }
        | some (gseg, kseg) =>
          match group.GetGroup reg (String.mk gseg) with
          | none => { status := 404, contentType := none, body := .text "Group Not Found" }
          | some grp =>
            match grp.Get (String.mk kseg) with
            | (_, some e) => { status := 500, contentType := none, body := .text e }
            | (bv, none) =>
              match marshal bv.ByteSlice with
              | .error e => { status := 500, contentType := none, body := .text e }
              | .ok enc =>
                { status := 200, contentType := some "application/octet-stream",
                  body := .bin enc }) := by
  unfold httpserver.Serve httpserver.extractGroupKey
  have h1 : bp.data.isPrefixOf (String.mk (bp.data ++ rest)).data = true :=
    List.isPrefixOf_iff_prefix.mpr (List.prefix_append _ _)
  rw [if_pos h1]
  have h2 : (String.mk (bp.data ++ rest)).data.drop bp.data.length = rest :=
    List.drop_left _ _
  rw [h2]

/-- Claim C8: for requests whose path starts with the configured base path, the
handler answers 400 when the remainder has no slash to split into group and
key segments, 404 for an unknown group, 500 when Group.Get or the response
encoding fails, and otherwise 200 with Content-Type application/octet-stream
and the encoded value bytes as body. -/
theorem C8_serve_statuses (reg : group.Registry)
    (marshal : List Nat → Except String (List Nat)) (bp : String) (rest : List Char)
    (path : String) (hpath : path = String.mk (bp.data ++ rest)) :
    ((∀ c ∈ rest, c ≠ httpserver.slash) →
      httpserver.Serve reg marshal bp path =
        some { status := 400, contentType := none, body := .text "Bad Request" })
    ∧ (∀ gseg kseg, rest = gseg ++ httpserver.slash :: kseg →
        (∀ c ∈ gseg, c ≠ httpserver.slash) →
        ((group.GetGroup reg (String.mk gseg) = none →
            httpserver.Serve reg marshal bp path =
              some { status := 404, contentType := none, body := .text "Group Not Found" })
        ∧ (∀ grp bv e, group.GetGroup reg (String.mk gseg) = some grp →
            grp.Get (String.mk kseg) = (bv, some e) →
            httpserver.Serve reg marshal bp path =
              some { status := 500, contentType := none, body := .text e })
        ∧ (∀ grp bv e, group.GetGroup reg (String.mk gseg) = some grp →
            grp.Get (String.mk kseg) = (bv, none) → marshal bv.ByteSlice = .error e →
            httpserver.Serve reg marshal bp path =
              some { status := 500, contentType := none, body := .text e })
        ∧ (∀ grp bv enc, group.GetGroup reg (String.mk gseg) = some grp →
            grp.Get (String.mk kseg) = (bv, none) → marshal bv.ByteSlice = .ok enc →
            httpserver.Serve reg marshal bp path =
              some { status := 200, contentType := some "application/octet-stream",
                     body := .bin enc }))) := by
  subst hpath
  constructor
  · intro hns
    rw [serve_eq]
    simp only [splitFirst_of_not_mem hns]
  · intro gseg kseg hrest hns
    subst hrest
    have hsp : splitFirst httpserver.slash (gseg ++ httpserver.slash :: kseg) =
        some (gseg, kseg) := splitFirst_append hns
    refine ⟨?_, ?_, ?_, ?_⟩
    · intro hg
      rw [serve_eq]
      simp only [hsp, hg]
    · intro grp bv e hg hget
      rw [serve_eq]
      simp only [hsp, hg, hget]
    · intro grp bv e hg hget hm
      rw [serve_eq]
      simp only [hsp, hg, hget, hm]
    · intro grp bv enc hg hget hm
      rw [serve_eq]
      simp only [hsp, hg, hget, hm]

/-- Witness for C8 at concrete requests: a malformed path, an unknown group, a
loader failure, a success, and an encoder failure. -/
theorem C8_serve_statuses_witness :
    httpserver.Serve [] (fun bs => .ok bs) "/_geecache/" "/_geecache/onlygroup" =
      some { status := 400, contentType := none, body := .text "Bad Request" }
    ∧ httpserver.Serve [] (fun bs => .ok bs) "/_geecache/" "/_geecache/nope/Tom" =
      some { status := 404, contentType := none, body := .text "Group Not Found" }
    ∧ httpserver.Serve
        [("scores",
          { name := "scores", cache := { lru_cache := none, Cache_bytes := 1024 },
            f := fun k => if k = "Tom" then .ok [54, 51, 48] else .error "miss",
            peers := none })]
        (fun bs => .ok bs) "/_geecache/" "/_geecache/scores/Ghost" =
      some { status := 500, contentType := none, body := .text "miss" }
    ∧ httpserver.Serve
        [("scores",
          { name := "scores", cache := { lru_cache := none, Cache_bytes := 1024 },
            f := fun k => if k = "Tom" then .ok [54, 51, 48] else .error "miss",
            peers := none })]
        (fun bs => .ok bs) "/_geecache/" "/_geecache/scores/Tom" =
      some { status := 200, contentType := some "application/octet-stream",
             body := .bin [54, 51, 48] }
    ∧ httpserver.Serve
        [("scores",
          { name := "scores", cache := { lru_cache := none, Cache_bytes := 1024 },
            f := fun k => if k = "Tom" then .ok [54, 51, 48] else .error "miss",
            peers := none })]
        (fun _ => .error "encode fail") "/_geecache/" "/_geecache/scores/Tom" =
      some { status := 500, contentType := none, body := .text "encode fail" } := by
  refine ⟨?_, ?_, ?_, ?_, ?_⟩
  · exact (C8_serve_statuses [] (fun bs => .ok bs) "/_geecache/" ("onlygroup".data)
      "/_geecache/onlygroup" (by decide)).1 (by decide)
  · exact ((C8_serve_statuses [] (fun bs => .ok bs) "/_geecache/" ("nope/Tom".data)
      "/_geecache/nope/Tom" (by decide)).2 ("nope".data) ("Tom".data) (by decide)
      (by decide)).1 rfl
  · exact ((C8_serve_statuses _ (fun bs => .ok bs) "/_geecache/" ("scores/Ghost".data)
      "/_geecache/scores/Ghost" (by decide)).2 ("scores".data) ("Ghost".data) (by decide)
      (by decide)).2.1 _ ⟨[]⟩ "miss" rfl rfl
  · exact ((C8_serve_statuses _ (fun bs => .ok bs) "/_geecache/" ("scores/Tom".data)
      "/_geecache/scores/Tom" (by decide)).2 ("scores".data) ("Tom".data) (by decide)
      (by decide)).2.2.2 _ (cache.NewByteView [54, 51, 48]) [54, 51, 48] rfl rfl rfl
  · exact ((C8_serve_statuses _ (fun _ => .error "encode fail") "/_geecache/"
      ("scores/Tom".data) "/_geecache/scores/Tom" (by decide)).2 ("scores".data)
      ("Tom".data) (by decide) (by decide)).2.2.1 _ (cache.NewByteView [54, 51, 48])
      "encode fail" rfl rfl rfl

/-- Claim C10: the client requests BaseURL ++ QueryEscape(group) ++ slash ++
QueryEscape(key), and the serving side splits the path after the base path at
the first slash with no unescaping; hence the served pair is always the
escaped pair, group and key that are fixed points of query-escaping arrive
exactly, and a key altered by query-escaping is served as a different key. -/
theorem C10_key_roundtrip (hst bp g k : String) (url path : String)
    (hurl : url = httpclient.HttpClient.GetURL { BaseURL := hst ++ bp } g k)
    (hpath : path = String.mk (url.data.drop hst.data.length)) :
    (httpserver.extractGroupKey bp path =
      some ((queryEscape g).data, (queryEscape k).data))
    ∧ (queryEscape g = g → queryEscape k = k →
        httpserver.extractGroupKey bp path = some (g.data, k.data))
    ∧ (queryEscape k ≠ k → ∀ pr, httpserver.extractGroupKey bp path = some pr →
        pr.2 ≠ k.data) := by
  subst hurl
  subst hpath
  have hdata : (httpclient.HttpClient.GetURL { BaseURL := hst ++ bp } g k).data =
      hst.data ++ (bp.data ++
        ((queryEscape g).data ++ httpserver.slash :: (queryEscape k).data)) := by
    show ((hst ++ bp) ++ queryEscape g ++ "/" ++ queryEscape k).data = _
    simp only [String.data_append, List.append_assoc]
    rfl
  have hextract : httpserver.extractGroupKey bp
      (String.mk ((httpclient.HttpClient.GetURL
        { BaseURL := hst ++ bp } g k).data.drop hst.data.length)) =
      some ((queryEscape g).data, (queryEscape k).data) := by
    unfold httpserver.extractGroupKey
    show splitFirst httpserver.slash
      (((httpclient.HttpClient.GetURL
          { BaseURL := hst ++ bp } g k).data.drop hst.data.length).drop bp.data.length) = _
    rw [hdata, List.drop_left, List.drop_left]
    exact splitFirst_append (not_slash_of_mem_queryEscape g)
  refine ⟨hextract, ?_, ?_⟩
  · intro hg hk
    rw [hg, hk] at hextract
    exact hextract
  · intro hk pr hpr
    rw [hextract] at hpr
    have hpr2 : pr = ((queryEscape g).data, (queryEscape k).data) :=
      (Option.some.injEq _ _ ▸ hpr).symm
    subst hpr2
    intro he
    exact hk (String.ext he)

/-- Witness for C10: the key Tom (a fixed point of escaping) round-trips
exactly; the key containing a space is served as its escaped form, a different
key. -/
theorem C10_key_roundtrip_witness :
    httpserver.extractGroupKey "/_geecache/"
      (String.mk ((httpclient.HttpClient.GetURL
          { BaseURL := "http://localhost:8002" ++ "/_geecache/" } "scores" "Tom").data.drop
        ("http://localhost:8002" : String).data.length)) =
      some (("scores" : String).data, ("Tom" : String).data)
    ∧ ((queryEscape "scores").data, (queryEscape "a b").data).2 ≠ ("a b" : String).data :=
  ⟨(C10_key_roundtrip "http://localhost:8002" "/_geecache/" "scores" "Tom" _ _
      rfl rfl).2.1 (by decide) (by decide),
   (C10_key_roundtrip "http://localhost:8002" "/_geecache/" "scores" "a b" _ _
      rfl rfl).2.2 (by decide) _
     (C10_key_roundtrip "http://localhost:8002" "/_geecache/" "scores" "a b" _ _
      rfl rfl).1⟩
